import Mathlib

/-!
# The todo service: request handlers over the todos table

A shallow embedding of `backend/main.go`.  The four HTTP handlers
(`getTodos`, `createTodo`, `updateTodo`, `deleteTodo`) are functions from the
request and the state of the `todos` table to a response and the next state of
the table.  The SQL statements the handlers send are interpreted over the table
as declared by `initializeSchema`.

What the environment decides is an explicit argument of a handler:

* `parseTime`: how a JSON string is read as an RFC 3339 time (the `time`
  package); every theorem holds for every such reading;
* `fault`: whether the connection refuses the statement, and with which error;
* `now`: the clock reading the datastore uses for `CURRENT_TIMESTAMP`.

The texts of decoder and datastore errors are written out to make the
responses readable; no theorem depends on their wording.
-/

namespace TodoService

/-! ## Go values -/

/-- A `time.Time`: the wall-clock reading in nanoseconds counted from
0001-01-01T00:00:00, and the zone offset in seconds east of UTC.  The zero
value is 0001-01-01T00:00:00 UTC. -/
structure Time where
  wall : Int
  offset : Int
deriving DecidableEq, Repr

/-- The zero `time.Time`, which a `Todo` holds until a due date is decoded. -/
def Time.zero : Time := ⟨0, 0⟩

/-- Whether `time.Time.MarshalJSON` writes the time: it returns an error when
the year of the wall-clock reading is outside 0..9999.  The year 0 begins 366
days, that is 31622400 seconds, before 0001-01-01, and the year 10000 begins
3652059 days, that is 315537897600 seconds, after it. -/
def Time.marshals (t : Time) : Bool :=
  decide (-31622400000000000 ≤ t.wall) && decide (t.wall < 315537897600000000000)

/-- The struct `Todo` of the source. -/
structure Todo where
  ID : Int
  Title : String
  DueDate : Time
  Status : String
deriving DecidableEq, Repr

/-- The value of `var todo Todo`. -/
def Todo.zero : Todo := ⟨0, "", Time.zero, ""⟩

/-! ## Request bodies and `json.Decoder.Decode` -/

/-- A JSON value.  A number literal with neither fraction nor exponent is
`int`; every other number literal is `real`. -/
inductive JSON where
  | null
  | bool (b : Bool)
  | int (n : Int)
  | real (lit : String)
  | str (s : String)
  | arr (items : List JSON)
  | obj (members : List (String × JSON))

/-- A request body as the decoder meets it: either its first JSON value, or the
error the decoder reports when the body does not start with one (a syntax
error, or `EOF` for an empty body). -/
inductive ReqBody where
  | malformed (err : String)
  | value (v : JSON)

/-- Case folding of one character of an object key, as far as it matters for
the ASCII field names of `Todo`: ASCII letters fold to upper case, and the two
non-ASCII characters that fold onto ASCII letters fold with them. -/
def foldRune (c : Char) : Char :=
  if c = Char.ofNat 0x17F then 'S'
  else if c = Char.ofNat 0x212A then 'K'
  else c.toUpper

/-- An object key addresses the struct field tagged `name` when the two are
equal up to case folding. -/
def keyMatches (name key : String) : Bool :=
  key.toList.map foldRune == name.toList.map foldRune

/-- How the decoder names the kind of a JSON value in a type error. -/
def JSON.kind : JSON → String
  | .null => "null"
  | .bool _ => "bool"
  | .int _ => "number"
  | .real _ => "number"
  | .str _ => "string"
  | .arr _ => "array"
  | .obj _ => "object"

/-- The text of an `UnmarshalTypeError` for a field of `Todo`. -/
def fieldTypeError (value field type : String) : String :=
  "json: cannot unmarshal " ++ value ++ " into Go struct field Todo." ++ field ++ " of type " ++ type

/-- The decoder while it fills a `Todo`: the struct so far and the first type
error it has saved (decoding goes on after a type error, and the error is
returned at the end). -/
structure DecodeState where
  todo : Todo
  savedError : Option String

/-- Save a type error unless one is saved already. -/
def DecodeState.saveError (d : DecodeState) (e : String) : DecodeState :=
  match d.savedError with
  | some _ => d
  | none => { d with savedError := some e }

/-- Decode one member of the body object into the field its key addresses.
`null` leaves the field as it is; a value of the wrong kind is a saved type
error; a `due_date` that `time.Time` cannot read ends decoding at once.  A key
that addresses no field is skipped. -/
def storeMember (parseTime : String → Except String Time) (d : DecodeState)
    (key : String) (v : JSON) : Except String DecodeState :=
  if keyMatches "id" key then
    match v with
    | .null => .ok d
    | .int n =>
      if -9223372036854775808 ≤ n ∧ n ≤ 9223372036854775807 then
        .ok { d with todo := { d.todo with ID := n } }
      else .ok (d.saveError (fieldTypeError ("number " ++ toString n) "id" "int"))
    | .real lit => .ok (d.saveError (fieldTypeError ("number " ++ lit) "id" "int"))
    | w => .ok (d.saveError (fieldTypeError w.kind "id" "int"))
  else if keyMatches "title" key then
    match v with
    | .null => .ok d
    | .str s => .ok { d with todo := { d.todo with Title := s } }
    | w => .ok (d.saveError (fieldTypeError w.kind "title" "string"))
  else if keyMatches "due_date" key then
    match v with
    | .null => .ok d
    | .str s =>
      match parseTime s with
      | .ok t => .ok { d with todo := { d.todo with DueDate := t } }
      | .error e => .error e
    | _ => .error "Time.UnmarshalJSON: input is not a JSON string"
  else if keyMatches "status" key then
    match v with
    | .null => .ok d
    | .str s => .ok { d with todo := { d.todo with Status := s } }
    | w => .ok (d.saveError (fieldTypeError w.kind "status" "string"))
  else .ok d

/-- Decode the members of the body object in the order they are written. -/
def storeMembers (parseTime : String → Except String Time) :
    DecodeState → List (String × JSON) → Except String DecodeState
  | d, [] => .ok d
  | d, (key, v) :: rest =>
    match storeMember parseTime d key v with
    | .error e => .error e
    | .ok d' => storeMembers parseTime d' rest

/-- The call `json.NewDecoder(r.Body).Decode(&todo)` on a zero `Todo`: the
decoded struct, or the text of the error. -/
def decodeTodo (parseTime : String → Except String Time) : ReqBody → Except String Todo
  | .malformed err => .error err
  | .value .null => .ok Todo.zero
  | .value (.obj members) =>
    match storeMembers parseTime ⟨Todo.zero, none⟩ members with
    | .error e => .error e
    | .ok d =>
      match d.savedError with
      | some e => .error e
      | none => .ok d.todo
  | .value v => .error ("json: cannot unmarshal " ++ v.kind ++ " into Go value of type main.Todo")

/-- The body object has no member whose key addresses the field `name`. -/
def omits (name : String) (members : List (String × JSON)) : Bool :=
  members.all fun m => !keyMatches name m.1

/-- Whether a JSON value is `null`. -/
def JSON.isNull : JSON → Bool
  | .null => true
  | _ => false

/-- The body object gives no due date: every member whose key addresses the
field `due_date` has the value `null`. -/
def withoutDueDate (members : List (String × JSON)) : Bool :=
  members.all fun m => !keyMatches "due_date" m.1 || m.2.isNull

/-! ## Responses -/

/-- What a handler writes as the response body: nothing; the plain-text line
`http.Error` writes for a message; or the JSON encoding of a Go value, which
is represented by the value.  A slice is `none` when it is the nil slice,
which encodes as `null`, and `some l` otherwise, which encodes as an array with
one element per element of `l`. -/
inductive Body where
  | empty
  | errorText (msg : String)
  | todo (t : Todo)
  | todos (ts : Option (List Todo))
deriving DecidableEq, Repr

/-- An HTTP response: status code, `Content-Type` header if set, body. -/
structure Response where
  status : Nat
  contentType : Option String
  body : Body
deriving DecidableEq, Repr

/-- The call `http.Error(w, msg, code)`. -/
def httpError (msg : String) (code : Nat) : Response :=
  ⟨code, some "text/plain; charset=utf-8", .errorText msg⟩

/-- Setting `Content-Type: application/json` and encoding a value: the status
is the implicit 200. -/
def jsonResponse (b : Body) : Response :=
  ⟨200, some "application/json", b⟩

/-- The call `w.WriteHeader(http.StatusOK)` with nothing written after it. -/
def statusOK : Response :=
  ⟨200, none, .empty⟩

/-! ## The datastore

The table `todos` as `initializeSchema` declares it:

    id SERIAL PRIMARY KEY, title VARCHAR(255) NOT NULL, due_date TIMESTAMP,
    status VARCHAR(20) DEFAULT 'pending', created_at, updated_at TIMESTAMP
    DEFAULT CURRENT_TIMESTAMP

A nullable column holds an `Option`.  Timestamps are whole microseconds of a
wall-clock reading without zone, counted from 0001-01-01T00:00:00. -/

/-- A row of `todos`. -/
structure Row where
  id : Int
  title : String
  due_date : Option Int
  status : Option String
  created_at : Option Int
  updated_at : Option Int
deriving DecidableEq, Repr

/-- The table `todos` together with the sequence behind its `SERIAL` column:
`seq` is the last value the sequence has handed out, 0 before the first. -/
structure DB where
  rows : List Row
  seq : Nat
deriving DecidableEq, Repr

/-- The statement of `initializeSchema`, `CREATE TABLE IF NOT EXISTS todos`:
an existing table is left as it is, otherwise the table is created empty with a
fresh sequence.  The result is the table after the statement and the error the
function returns. -/
def initializeSchema (fault : Option String) (db : Option DB) : Option DB × Option String :=
  match fault with
  | some e => (db, some e)
  | none =>
    match db with
    | some t => (some t, none)
    | none => (some ⟨[], 0⟩, none)

/-- The largest value of the `integer` type, which `SERIAL` columns have. -/
def maxInt4 : Int := 2147483647

/-- A text parameter stored into a `VARCHAR(n)` column: text with a zero
character is not accepted by the datastore; text of at most `n` characters is
stored as it is; longer text is an error unless all characters past the
`n`-th are spaces, in which case it is cut to `n` characters. -/
def varchar (n : Nat) (s : String) : Except String String :=
  if s.toList.contains (Char.ofNat 0) then
    .error "invalid byte sequence for encoding UTF8: 0x00"
  else if s.length ≤ n then .ok s
  else if (s.toList.drop n).all (fun c => c == ' ') then .ok (String.mk (s.toList.take n))
  else .error ("value too long for type character varying(" ++ toString n ++ ")")

/-- White space as the datastore skips it around a number. -/
def isSpace (c : Char) : Bool :=
  c == ' ' || (9 ≤ c.toNat && c.toNat ≤ 13)

/-- The value of a non-empty run of decimal digits read after the digits whose
value is `acc`. -/
def digitsValue (acc : Nat) : List Char → Option Nat
  | [] => some acc
  | c :: rest =>
    if c.isDigit then digitsValue (acc * 10 + (c.toNat - 48)) rest else none

/-- The datastore reading a text parameter as an `integer`, which is how the
path variable `id` reaches `WHERE id = $n`: optional white space, an optional
sign, decimal digits, optional white space, with the value inside the range of
the type. -/
def int4in (s : String) : Except String Int :=
  let cs := ((s.toList.dropWhile isSpace).reverse.dropWhile isSpace).reverse
  let signed : Bool × List Char :=
    match cs with
    | '-' :: rest => (true, rest)
    | '+' :: rest => (false, rest)
    | rest => (false, rest)
  match signed.2 with
  | [] => .error ("invalid input syntax for type integer: " ++ s)
  | ds =>
    match digitsValue 0 ds with
    | none => .error ("invalid input syntax for type integer: " ++ s)
    | some v =>
      let n : Int := if signed.1 then -(v : Int) else (v : Int)
      if -maxInt4 - 1 ≤ n ∧ n ≤ maxInt4 then .ok n
      else .error ("value " ++ s ++ " is out of range for type integer")

/-- A `time.Time` parameter stored into a `TIMESTAMP` column: the zone is
dropped and the wall-clock reading is kept, in whole microseconds. -/
def toTimestamp (t : Time) : Int := t.wall / 1000

/-- A `TIMESTAMP` value scanned into a `time.Time`: the reading, in UTC. -/
def fromTimestamp (us : Int) : Time := ⟨us * 1000, 0⟩

/-- The statement of `createTodo`,
`INSERT INTO todos (title, due_date, status) VALUES ($1, $2, $3) RETURNING id`,
followed by `Scan(&todo.ID)`.  All three columns are given a value, so none
takes its column default; `id` takes the next value of the sequence, and
`created_at` and `updated_at` the clock reading.  A failed statement leaves the
rows as they are; a value of the sequence, once taken, stays taken. -/
def insertTodo (fault : Option String) (now : Int) (db : DB)
    (title : String) (dueDate : Time) (status : String) : DB × Except String Int :=
  match fault with
  | some e => (db, .error e)
  | none =>
    match varchar 255 title with
    | .error e => (db, .error e)
    | .ok ti =>
      match varchar 20 status with
      | .error e => (db, .error e)
      | .ok st =>
        if maxInt4 < (db.seq : Int) + 1 then
          (db, .error "nextval: reached maximum value of sequence todos_id_seq (2147483647)")
        else
          let id : Int := (db.seq : Int) + 1
          if db.rows.any (fun r => r.id == id) then
            (⟨db.rows, db.seq + 1⟩,
              .error "duplicate key value violates unique constraint todos_pkey")
          else
            (⟨db.rows ++ [⟨id, ti, some (toTimestamp dueDate), some st, some now, some now⟩],
                db.seq + 1⟩, .ok id)

/-- The statement of `updateTodo`,
`UPDATE todos SET title = $1, due_date = $2, status = $3,
updated_at = CURRENT_TIMESTAMP WHERE id = $4`.  The parameters are checked
against the types of their columns when the statement is bound, whether or not
a row matches. -/
def updateRows (fault : Option String) (now : Int) (db : DB)
    (title : String) (dueDate : Time) (status : String) (id : String) : DB × Except String Unit :=
  match fault with
  | some e => (db, .error e)
  | none =>
    match int4in id with
    | .error e => (db, .error e)
    | .ok n =>
      match varchar 255 title with
      | .error e => (db, .error e)
      | .ok ti =>
        match varchar 20 status with
        | .error e => (db, .error e)
        | .ok st =>
          (⟨db.rows.map fun r =>
              if r.id = n then
                { r with title := ti, due_date := some (toTimestamp dueDate),
                         status := some st, updated_at := some now }
              else r, db.seq⟩, .ok ())

/-- The statement of `deleteTodo`, `DELETE FROM todos WHERE id = $1`. -/
def deleteRows (fault : Option String) (db : DB) (id : String) : DB × Except String Unit :=
  match fault with
  | some e => (db, .error e)
  | none =>
    match int4in id with
    | .error e => (db, .error e)
    | .ok n => (⟨db.rows.filter fun r => r.id != n, db.seq⟩, .ok ())

/-- The order of `ORDER BY due_date ASC` on the sort key: ascending, rows
without a due date after all others. -/
def dueBefore (a b : Option Int) : Bool :=
  match a, b with
  | some x, some y => decide (x ≤ y)
  | some _, none => true
  | none, some _ => false
  | none, none => true

/-- The order of `ORDER BY due_date ASC` on rows. -/
def rowBefore (a b : Row) : Prop := dueBefore a.due_date b.due_date = true

instance rowBeforeDecidable : DecidableRel rowBefore :=
  fun a b => inferInstanceAs (Decidable (dueBefore a.due_date b.due_date = true))

instance rowBefore_isTotal : IsTotal Row rowBefore where
  total a b := by
    unfold rowBefore
    cases a.due_date <;> cases b.due_date <;> simp [dueBefore]
    exact le_total _ _

instance rowBefore_isTrans : IsTrans Row rowBefore where
  trans a b c := by
    unfold rowBefore
    cases a.due_date <;> cases b.due_date <;> cases c.due_date <;> simp [dueBefore]
    exact fun hab hbc => le_trans hab hbc

/-- The rows the query of `getTodos` yields,
`SELECT id, title, due_date, status FROM todos ORDER BY due_date ASC`: the rows
of the table, sorted.  (The datastore leaves the order of rows with equal due
dates open; here they keep the order of the table.) -/
def selectTodos (db : DB) : List Row :=
  db.rows.insertionSort rowBefore

/-- How the connection treats the query of `getTodos`: it answers it in full;
or `conn.Query` returns the error; or the stream of result rows breaks after
`k` rows, so that `rows.Next()` returns false from then on and the error is
what `rows.Err()` would return. -/
inductive QueryFault where
  | none
  | query (err : String)
  | rows (k : Nat) (err : String)
deriving DecidableEq, Repr

/-- The call `rows.Scan(&todo.ID, &todo.Title, &todo.DueDate, &todo.Status)`:
the destinations are an `int`, two `string`s and a `time.Time`, none of which
can take a NULL. -/
def scanTodo (r : Row) : Except String Todo :=
  match r.due_date, r.status with
  | none, _ => .error "can't scan into dest[2]: cannot scan NULL into *time.Time"
  | some _, none => .error "can't scan into dest[3]: cannot scan NULL into *string"
  | some d, some s => .ok ⟨r.id, r.title, fromTimestamp d, s⟩

/-! ## The handlers -/

/-- The loop `for rows.Next()` of `getTodos` over the rows still to come, with
the slice `todos` built so far: the slice when the rows are used up, or the
error of the first scan that fails. -/
def scanRows (todos : List Todo) : List Row → Except String (List Todo)
  | [] => .ok todos
  | r :: rest =>
    match scanTodo r with
    | .error e => .error e
    | .ok todo => scanRows (todos ++ [todo]) rest

/-- The last two lines of `getTodos`, which set `Content-Type` and call
`json.NewEncoder(w).Encode(todos)`.  The encoder marshals the whole slice
before it writes: when every due date can be marshalled it writes the array;
otherwise it writes nothing and returns an error.  The handler discards the
value `Encode` returns, so the response is then 200 with an empty body. -/
def encodeTodos (todos : List Todo) : Response :=
  if todos.all (fun t => t.DueDate.marshals) then jsonResponse (.todos (some todos))
  else ⟨200, some "application/json", .empty⟩

/-- The handler `getTodos`.  After the loop the handler encodes `todos`
without consulting `rows.Err()`. -/
def getTodos (fault : QueryFault) (db : DB) : Response :=
  match fault with
  | .query err => httpError err 500
  | .none =>
    match scanRows [] (selectTodos db) with
    | .error e => httpError e 500
    | .ok todos => encodeTodos todos
  | .rows k _ =>
    match scanRows [] ((selectTodos db).take k) with
    | .error e => httpError e 500
    | .ok todos => encodeTodos todos

/-- The handler `createTodo`.  Its call of `Encode` writes the todo: the due
date of a decoded `Todo` is the zero time or was read from RFC 3339 text, which
has a year of four digits. -/
def createTodo (parseTime : String → Except String Time) (fault : Option String) (now : Int)
    (db : DB) (body : ReqBody) : DB × Response :=
  match decodeTodo parseTime body with
  | .error e => (db, httpError e 400)
  | .ok todo =>
    match insertTodo fault now db todo.Title todo.DueDate todo.Status with
    | (db', .error e) => (db', httpError e 500)
    | (db', .ok id) => (db', jsonResponse (.todo { todo with ID := id }))

/-- The handler `updateTodo`; `id` is the path variable. -/
def updateTodo (parseTime : String → Except String Time) (fault : Option String) (now : Int)
    (db : DB) (id : String) (body : ReqBody) : DB × Response :=
  match decodeTodo parseTime body with
  | .error e => (db, httpError e 400)
  | .ok todo =>
    match updateRows fault now db todo.Title todo.DueDate todo.Status id with
    | (db', .error e) => (db', httpError e 500)
    | (db', .ok _) => (db', statusOK)

/-- The handler `deleteTodo`; `id` is the path variable. -/
def deleteTodo (fault : Option String) (db : DB) (id : String) : DB × Response :=
  match deleteRows fault db id with
  | (db', .error e) => (db', httpError e 500)
  | (db', .ok _) => (db', statusOK)

/-- The relation between a row and the `Todo` a successful scan makes of it. -/
def Scanned (r : Row) (t : Todo) : Prop := scanTodo r = .ok t

/-! ## Sequences of requests -/

/-- A request to one of the four routes, with what the environment decides
while it is served. -/
inductive Request where
  | list (fault : QueryFault)
  | create (fault : Option String) (now : Int) (body : ReqBody)
  | update (fault : Option String) (now : Int) (id : String) (body : ReqBody)
  | delete (fault : Option String) (id : String)

/-- The routes of `main`: GET and POST on `/api/todos`, PUT and DELETE on
`/api/todos/{id}`. -/
def serve (parseTime : String → Except String Time) (db : DB) : Request → DB × Response
  | .list fault => (db, getTodos fault db)
  | .create fault now body => createTodo parseTime fault now db body
  | .update fault now id body => updateTodo parseTime fault now db id body
  | .delete fault id => deleteTodo fault db id

/-- Serve requests one after the other: the table at the end and the log of
requests with their responses. -/
def serveAll (parseTime : String → Except String Time) :
    DB → List Request → DB × List (Request × Response)
  | db, [] => (db, [])
  | db, req :: rest =>
    ((serveAll parseTime (serve parseTime db req).1 rest).1,
      (req, (serve parseTime db req).2) :: (serveAll parseTime (serve parseTime db req).1 rest).2)

/-- The ids that the Create requests of a log returned to their callers. -/
def createdIds : List (Request × Response) → List Int
  | [] => []
  | (.create _ _ _, ⟨_, _, .todo t⟩) :: rest => t.ID :: createdIds rest
  | _ :: rest => createdIds rest

/-! ## Example inputs -/

/-- The reading of the RFC 3339 texts that occur in the examples below as a
`time.Time`.  2024-01-01 is day 738885 after 0001-01-01. -/
def readExampleTime (s : String) : Except String Time :=
  if s = "2024-01-01T00:00:00Z" then .ok ⟨63839664000000000000, 0⟩
  else if s = "2024-01-01T00:00:00.0000005Z" then .ok ⟨63839664000000000500, 0⟩
  else if s = "2024-06-30T12:00:00Z" then .ok ⟨63855345600000000000, 0⟩
  else .error ("parsing time " ++ s ++ " as 2006-01-02T15:04:05Z07:00: cannot parse")

/-- The body of the example scenario of the specification. -/
def buyMilk : ReqBody :=
  .value (.obj [("title", .str "Buy milk"), ("due_date", .str "2024-01-01T00:00:00Z"),
    ("status", .str "pending")])

/-- A body with a title and nothing else. -/
def titleOnly : ReqBody :=
  .value (.obj [("title", .str "Buy milk")])

/-! ## Facts about the scan loop and the query -/

theorem scanRows_ok (rows : List Row) : ∀ (acc l : List Todo),
    scanRows acc rows = .ok l → ∃ ts, l = acc ++ ts ∧ List.Forall₂ Scanned rows ts := by
  induction rows with
  | nil =>
    intro acc l h
    simp only [scanRows, Except.ok.injEq] at h
    exact ⟨[], by simp [h], List.Forall₂.nil⟩
  | cons r rest ih =>
    intro acc l h
    unfold scanRows at h
    cases hr : scanTodo r with
    | error e => rw [hr] at h; cases h
    | ok t =>
      rw [hr] at h
      obtain ⟨ts, hl, hts⟩ := ih _ _ h
      exact ⟨t :: ts, by simp [hl], List.Forall₂.cons hr hts⟩

theorem scanRows_of_scanned (rows : List Row) : ∀ (acc ts : List Todo),
    List.Forall₂ Scanned rows ts → scanRows acc rows = .ok (acc ++ ts) := by
  induction rows with
  | nil =>
    intro acc ts h
    cases h
    simp [scanRows]
  | cons r rest ih =>
    intro acc ts h
    cases h with
    | cons hr hrest =>
      unfold scanRows
      rw [show scanTodo r = .ok _ from hr]
      simp only
      rw [ih _ _ hrest]
      simp

theorem scanned_ID {r : Row} {t : Todo} (h : Scanned r t) : t.ID = r.id := by
  unfold Scanned scanTodo at h
  split at h
  · cases h
  · cases h
  · cases h; rfl

theorem scanned_DueDate {r : Row} {t : Todo} (h : Scanned r t) :
    ∃ d, r.due_date = some d ∧ t.DueDate = fromTimestamp d := by
  unfold Scanned scanTodo at h
  split at h
  · cases h
  · cases h
  · rename_i d s hd hs
    cases h
    exact ⟨d, hd, rfl⟩

theorem scanned_explicit {r : Row} {t : Todo} (h : Scanned r t) :
    ∃ d s, r.due_date = some d ∧ r.status = some s ∧ t = ⟨r.id, r.title, ⟨d * 1000, 0⟩, s⟩ := by
  unfold Scanned scanTodo at h
  split at h
  · cases h
  · cases h
  · rename_i d s hd hs
    cases h
    exact ⟨d, s, hd, hs, rfl⟩

theorem httpError_ne_jsonResponse (e : String) (b : Body) : httpError e 500 ≠ jsonResponse b := by
  intro h
  have := congrArg Response.status h
  simp [httpError, jsonResponse] at this

theorem encodeTodos_status (l : List Todo) : (encodeTodos l).status = 200 := by
  unfold encodeTodos
  split <;> rfl

theorem encodeTodos_eq (l l' : List Todo) :
    encodeTodos l = jsonResponse (.todos (some l')) ↔
      l = l' ∧ l.all (fun t => t.DueDate.marshals) = true := by
  unfold encodeTodos
  by_cases h : l.all (fun t => t.DueDate.marshals) = true
  · rw [if_pos h]
    constructor
    · intro h'
      have := congrArg Response.body h'
      simp only [jsonResponse, Body.todos.injEq, Option.some.injEq] at this
      exact ⟨this, h⟩
    · rintro ⟨rfl, -⟩; rfl
  · rw [if_neg h]
    constructor
    · intro h'
      have := congrArg Response.body h'
      simp [jsonResponse] at this
    · rintro ⟨-, h'⟩; exact absurd h' h

/-- A List that the connection answers in full responds with an array exactly
when the scan loop ends without error and the encoder writes the slice the loop
built. -/
theorem getTodos_none_eq (db : DB) (l : List Todo) :
    getTodos .none db = jsonResponse (.todos (some l)) ↔
      scanRows [] (selectTodos db) = .ok l ∧ l.all (fun t => t.DueDate.marshals) = true := by
  unfold getTodos
  cases h : scanRows [] (selectTodos db) with
  | error e =>
    simp only
    constructor
    · intro h'; exact absurd h' (httpError_ne_jsonResponse e _)
    · rintro ⟨hl, -⟩; cases hl
  | ok l0 =>
    simp only
    rw [encodeTodos_eq]
    constructor
    · rintro ⟨rfl, hm⟩; exact ⟨rfl, hm⟩
    · rintro ⟨hl, hm⟩
      cases hl
      exact ⟨rfl, hm⟩

theorem getTodos_none_status (db : DB) (h : (getTodos .none db).status = 200) :
    ∃ l, scanRows [] (selectTodos db) = .ok l ∧ getTodos .none db = encodeTodos l := by
  unfold getTodos at h ⊢
  cases hs : scanRows [] (selectTodos db) with
  | error e => rw [hs] at h; simp [httpError] at h
  | ok l => exact ⟨l, rfl, rfl⟩

/-- Scans of rows whose due dates lie in the years 0..9999 can be marshalled. -/
theorem scanned_marshals {rows : List Row} {todos : List Todo}
    (hyear : ∀ r ∈ rows, ∀ d, r.due_date = some d →
      -31622400000000 ≤ d ∧ d < 315537897600000000)
    (h : List.Forall₂ Scanned rows todos) :
    todos.all (fun t => t.DueDate.marshals) = true := by
  induction h with
  | nil => rfl
  | @cons r t rows todos hrt _ ih =>
    rw [List.all_cons, Bool.and_eq_true]
    refine ⟨?_, ih fun r' hr' => hyear r' (List.mem_cons_of_mem _ hr')⟩
    obtain ⟨d, hd, ht⟩ := scanned_DueDate hrt
    have hb := hyear r (List.mem_cons_self _ _) d hd
    rw [ht]
    simp only [Time.marshals, fromTimestamp, Bool.and_eq_true, decide_eq_true_eq]
    omega

theorem selectTodos_perm (db : DB) : (selectTodos db).Perm db.rows :=
  List.perm_insertionSort rowBefore db.rows

theorem selectTodos_sorted (db : DB) : (selectTodos db).Sorted rowBefore :=
  List.sorted_insertionSort rowBefore db.rows

/-- Inserting into a sorted list and then filtering is filtering and then
inserting when the inserted element passes the filter. -/
theorem filter_orderedInsert {α : Type} (r : α → α → Prop) [DecidableRel r] [IsTrans α r]
    (p : α → Bool) (a : α) : ∀ s : List α, s.Sorted r →
      (s.orderedInsert r a).filter p =
        if p a then (s.filter p).orderedInsert r a else s.filter p := by
  intro s
  induction s with
  | nil => intro _; by_cases hp : p a <;> simp [hp]
  | cons b s ih =>
    intro hs
    have hs' : s.Sorted r := hs.of_cons
    have hb : ∀ c ∈ s, r b c := List.rel_of_sorted_cons hs
    by_cases hab : r a b
    · rw [List.orderedInsert_of_le r s hab]
      by_cases hp : p a
      · simp only [hp, if_true, List.filter_cons_of_pos]
        have hall : ∀ c ∈ (b :: s).filter p, r a c := by
          intro c hc
          have hc' : c ∈ b :: s := (List.mem_filter.mp hc).1
          rcases List.mem_cons.mp hc' with rfl | hcs
          · exact hab
          · exact IsTrans.trans _ _ _ hab (hb c hcs)
        cases hf : (b :: s).filter p with
        | nil => simp
        | cons c t =>
          have hac : r a c := hall c (by rw [hf]; exact List.mem_cons_self _ _)
          rw [List.orderedInsert_of_le r t hac]
      · simp [hp]
    · have ih' := ih hs'
      rw [List.orderedInsert, if_neg hab]
      by_cases hpb : p b
      · rw [List.filter_cons_of_pos hpb, ih', List.filter_cons_of_pos hpb]
        by_cases hp : p a
        · simp only [hp, if_true]
          rw [List.orderedInsert, if_neg hab]
        · simp [hp]
      · rw [List.filter_cons_of_neg hpb, ih', List.filter_cons_of_neg hpb]

/-- Insertion sort commutes with filtering. -/
theorem filter_insertionSort {α : Type} (r : α → α → Prop) [DecidableRel r] [IsTrans α r]
    [IsTotal α r] (p : α → Bool) (l : List α) :
    (l.filter p).insertionSort r = (l.insertionSort r).filter p := by
  induction l with
  | nil => simp
  | cons a l ih =>
    by_cases hp : p a
    · rw [List.filter_cons_of_pos hp, List.insertionSort, List.insertionSort,
        filter_orderedInsert r p a _ (List.sorted_insertionSort r l), if_pos hp, ih]
    · rw [List.filter_cons_of_neg hp, List.insertionSort,
        filter_orderedInsert r p a _ (List.sorted_insertionSort r l), if_neg hp, ih]

theorem pairwise_of_scanned {S : Row → Row → Prop} {T : Todo → Todo → Prop}
    (hST : ∀ a b x y, Scanned a x → Scanned b y → S a b → T x y) :
    ∀ {rows : List Row} {todos : List Todo}, List.Forall₂ Scanned rows todos →
      rows.Pairwise S → todos.Pairwise T := by
  intro rows todos h
  induction h with
  | nil => intro _; exact List.Pairwise.nil
  | @cons r t rows todos hrt hrest ih =>
    intro hp
    rw [List.pairwise_cons] at hp ⊢
    refine ⟨?_, ih hp.2⟩
    intro y hy
    obtain ⟨b, hb, hby⟩ : ∃ b, b ∈ rows ∧ Scanned b y := by
      clear ih hp
      induction hrest with
      | nil => cases hy
      | @cons r' t' rows' todos' h' _ ih' =>
        rcases List.mem_cons.mp hy with rfl | hy'
        · exact ⟨r', List.mem_cons_self _ _, h'⟩
        · obtain ⟨b, hb, hby⟩ := ih' hy'
          exact ⟨b, List.mem_cons_of_mem _ hb, hby⟩
    exact hST r b t y hrt hby (hp.1 b hb)

/-! ## Facts about the statements -/

theorem createTodo_of_decode (parseTime : String → Except String Time) (fault : Option String)
    (now : Int) (db : DB) (body : ReqBody) (X : Todo)
    (hdec : decodeTodo parseTime body = .ok X) :
    createTodo parseTime fault now db body =
      ((insertTodo fault now db X.Title X.DueDate X.Status).1,
        match (insertTodo fault now db X.Title X.DueDate X.Status).2 with
        | .error e => httpError e 500
        | .ok id => jsonResponse (.todo ⟨id, X.Title, X.DueDate, X.Status⟩)) := by
  unfold createTodo
  rw [hdec]
  simp only
  generalize insertTodo fault now db X.Title X.DueDate X.Status = res
  obtain ⟨db', r⟩ := res
  cases r <;> rfl

/-- What an insert that succeeds has done: the connection was up, the columns
accepted title and status, the sequence had a value left that no row used, and
the new row is appended with that value as its id. -/
theorem insertTodo_ok (fault : Option String) (now : Int) (db : DB) (title : String)
    (dueDate : Time) (status : String) (id : Int)
    (hok : (insertTodo fault now db title dueDate status).2 = .ok id) :
    ∃ ti st, varchar 255 title = .ok ti ∧ varchar 20 status = .ok st ∧
      (∀ r ∈ db.rows, r.id ≠ (db.seq : Int) + 1) ∧ id = (db.seq : Int) + 1 ∧
      (insertTodo fault now db title dueDate status).1 =
        ⟨db.rows ++ [⟨(db.seq : Int) + 1, ti, some (toTimestamp dueDate), some st,
            some now, some now⟩], db.seq + 1⟩ := by
  unfold insertTodo at hok ⊢
  cases fault with
  | some e => simp at hok
  | none =>
    simp only at hok ⊢
    cases hti : varchar 255 title with
    | error e => rw [hti] at hok; simp at hok
    | ok ti =>
      rw [hti] at hok
      simp only at hok ⊢
      cases hst : varchar 20 status with
      | error e => rw [hst] at hok; simp at hok
      | ok st =>
        rw [hst] at hok
        simp only at hok ⊢
        by_cases hmax : maxInt4 < (db.seq : Int) + 1
        · rw [if_pos hmax] at hok; simp at hok
        · rw [if_neg hmax] at hok ⊢
          by_cases hdup : (db.rows.any fun r => r.id == (db.seq : Int) + 1) = true
          · rw [if_pos hdup] at hok; simp at hok
          · rw [if_neg hdup] at hok ⊢
            simp only [Except.ok.injEq] at hok
            refine ⟨ti, st, rfl, rfl, ?_, hok.symm, rfl⟩
            intro r hr heq
            apply hdup
            rw [List.any_eq_true]
            exact ⟨r, hr, by simp [heq]⟩

/-- What a Create that responds 200 has done. -/
theorem createTodo_ok (parseTime : String → Except String Time) (fault : Option String)
    (now : Int) (db : DB) (body : ReqBody) (X : Todo)
    (hdec : decodeTodo parseTime body = .ok X)
    (hok : (createTodo parseTime fault now db body).2.status = 200) :
    ∃ ti st, varchar 255 X.Title = .ok ti ∧ varchar 20 X.Status = .ok st ∧
      (∀ r ∈ db.rows, r.id ≠ (db.seq : Int) + 1) ∧
      createTodo parseTime fault now db body =
        (⟨db.rows ++ [⟨(db.seq : Int) + 1, ti, some (toTimestamp X.DueDate), some st,
            some now, some now⟩], db.seq + 1⟩,
          jsonResponse (.todo ⟨(db.seq : Int) + 1, X.Title, X.DueDate, X.Status⟩)) := by
  rw [createTodo_of_decode parseTime fault now db body X hdec] at hok ⊢
  cases hres : (insertTodo fault now db X.Title X.DueDate X.Status).2 with
  | error e => rw [hres] at hok; simp [httpError] at hok
  | ok id =>
    obtain ⟨ti, st, hti, hst, hfresh, hid, hdb⟩ := insertTodo_ok fault now db _ _ _ id hres
    refine ⟨ti, st, hti, hst, hfresh, ?_⟩
    rw [hdb, hid]

theorem insertTodo_seq_le (fault : Option String) (now : Int) (db : DB) (title : String)
    (dueDate : Time) (status : String) :
    db.seq ≤ (insertTodo fault now db title dueDate status).1.seq := by
  unfold insertTodo
  cases fault with
  | some e => simp
  | none =>
    simp only
    cases varchar 255 title with
    | error e => simp
    | ok ti =>
      cases varchar 20 status with
      | error e => simp
      | ok st =>
        simp only
        split
        · simp
        · split <;> simp

theorem createTodo_seq_le (parseTime : String → Except String Time) (fault : Option String)
    (now : Int) (db : DB) (body : ReqBody) :
    db.seq ≤ (createTodo parseTime fault now db body).1.seq := by
  cases hdec : decodeTodo parseTime body with
  | error e => unfold createTodo; rw [hdec]
  | ok todo =>
    rw [createTodo_of_decode parseTime fault now db body todo hdec]
    exact insertTodo_seq_le fault now db todo.Title todo.DueDate todo.Status

theorem updateRows_seq (fault : Option String) (now : Int) (db : DB) (title : String)
    (dueDate : Time) (status : String) (id : String) :
    (updateRows fault now db title dueDate status id).1.seq = db.seq := by
  unfold updateRows
  cases fault with
  | some e => simp
  | none =>
    simp only
    cases int4in id with
    | error e => simp
    | ok n =>
      simp only
      cases varchar 255 title with
      | error e => simp
      | ok ti =>
        simp only
        cases varchar 20 status <;> simp

theorem updateTodo_of_decode (parseTime : String → Except String Time) (fault : Option String)
    (now : Int) (db : DB) (id : String) (body : ReqBody) (Y : Todo)
    (hdec : decodeTodo parseTime body = .ok Y) :
    updateTodo parseTime fault now db id body =
      ((updateRows fault now db Y.Title Y.DueDate Y.Status id).1,
        match (updateRows fault now db Y.Title Y.DueDate Y.Status id).2 with
        | .error e => httpError e 500
        | .ok _ => statusOK) := by
  unfold updateTodo
  rw [hdec]
  simp only
  generalize updateRows fault now db Y.Title Y.DueDate Y.Status id = res
  obtain ⟨db', r⟩ := res
  cases r <;> rfl

theorem updateTodo_seq (parseTime : String → Except String Time) (fault : Option String)
    (now : Int) (db : DB) (id : String) (body : ReqBody) :
    (updateTodo parseTime fault now db id body).1.seq = db.seq := by
  cases hdec : decodeTodo parseTime body with
  | error e => unfold updateTodo; rw [hdec]
  | ok todo =>
    rw [updateTodo_of_decode parseTime fault now db id body todo hdec]
    exact updateRows_seq fault now db todo.Title todo.DueDate todo.Status id

theorem deleteTodo_seq (fault : Option String) (db : DB) (id : String) :
    (deleteTodo fault db id).1.seq = db.seq := by
  unfold deleteTodo deleteRows
  cases fault with
  | some e => simp
  | none =>
    simp only
    cases int4in id <;> simp

theorem serve_seq_le (parseTime : String → Except String Time) (db : DB) (req : Request) :
    db.seq ≤ (serve parseTime db req).1.seq := by
  cases req with
  | list fault => simp [serve]
  | create fault now body => exact createTodo_seq_le parseTime fault now db body
  | update fault now id body => simp [serve, updateTodo_seq]
  | delete fault id => simp [serve, deleteTodo_seq]

theorem serveAll_seq_le (parseTime : String → Except String Time) (reqs : List Request) :
    ∀ db : DB, db.seq ≤ (serveAll parseTime db reqs).1.seq := by
  induction reqs with
  | nil => intro db; simp [serveAll]
  | cons req rest ih =>
    intro db
    simp only [serveAll]
    exact le_trans (serve_seq_le parseTime db req) (ih _)

/-- The id in the response of a Create is the value the sequence has reached. -/
theorem createTodo_body_todo (parseTime : String → Except String Time) (fault : Option String)
    (now : Int) (db : DB) (body : ReqBody) (t : Todo)
    (h : (createTodo parseTime fault now db body).2.body = .todo t) :
    t.ID = ((createTodo parseTime fault now db body).1.seq : Int) := by
  cases hdec : decodeTodo parseTime body with
  | error e =>
    unfold createTodo at h
    rw [hdec] at h
    simp [httpError] at h
  | ok X =>
    have hok : (createTodo parseTime fault now db body).2.status = 200 := by
      rw [createTodo_of_decode parseTime fault now db body X hdec] at h ⊢
      revert h
      cases (insertTodo fault now db X.Title X.DueDate X.Status).2 <;>
        simp [httpError, jsonResponse]
    obtain ⟨ti, st, -, -, -, heq⟩ := createTodo_ok parseTime fault now db body X hdec hok
    rw [heq] at h ⊢
    simp only [jsonResponse, Body.todo.injEq] at h
    rw [← h]
    simp

theorem mem_createdIds_cons {id : Int} {req : Request} {resp : Response}
    {log : List (Request × Response)} (h : id ∈ createdIds ((req, resp) :: log)) :
    (∃ fault now body t, req = .create fault now body ∧ resp.body = .todo t ∧ id = t.ID) ∨
      id ∈ createdIds log := by
  obtain ⟨status, ct, b⟩ := resp
  cases req <;> cases b <;> simp [createdIds] at h ⊢ <;> try exact h

/-- Every id a Create of the log returned is at most the value the sequence
has reached at the end of the log. -/
theorem createdIds_le_seq (parseTime : String → Except String Time) (reqs : List Request) :
    ∀ (db : DB), ∀ id ∈ createdIds (serveAll parseTime db reqs).2,
      id ≤ ((serveAll parseTime db reqs).1.seq : Int) := by
  induction reqs with
  | nil => intro db id h; simp [serveAll, createdIds] at h
  | cons req rest ih =>
    intro db id h
    simp only [serveAll] at h ⊢
    rcases mem_createdIds_cons h with ⟨fault, now, body, t, rfl, hb, rfl⟩ | h'
    · have h1 := createTodo_body_todo parseTime fault now db body t hb
      have h2 := serveAll_seq_le parseTime rest (serve parseTime db (.create fault now body)).1
      simp only [serve] at h2 ⊢
      rw [h1]
      exact_mod_cast h2
    · exact ih _ id h'

theorem scanned_filter {p : Row → Bool} {q : Todo → Bool}
    (hpq : ∀ r t, Scanned r t → p r = q t) :
    ∀ {rows : List Row} {todos : List Todo}, List.Forall₂ Scanned rows todos →
      List.Forall₂ Scanned (rows.filter p) (todos.filter q) := by
  intro rows todos h
  induction h with
  | nil => exact List.Forall₂.nil
  | @cons r t rows todos hrt _ ih =>
    have hq := hpq r t hrt
    by_cases hp : p r = true
    · rw [List.filter_cons_of_pos hp, List.filter_cons_of_pos (hq ▸ hp)]
      exact List.Forall₂.cons hrt ih
    · have hq' : ¬ q t = true := fun h' => hp (hq ▸ h')
      rw [List.filter_cons_of_neg hp, List.filter_cons_of_neg hq']
      exact ih

theorem scanned_mem {rows : List Row} {todos : List Todo}
    (h : List.Forall₂ Scanned rows todos) {t : Todo} (ht : t ∈ todos) :
    ∃ r ∈ rows, Scanned r t := by
  induction h with
  | nil => cases ht
  | @cons r' t' rows' todos' h' _ ih =>
    rcases List.mem_cons.mp ht with rfl | ht'
    · exact ⟨r', List.mem_cons_self _ _, h'⟩
    · obtain ⟨b, hb, hbt⟩ := ih ht'
      exact ⟨b, List.mem_cons_of_mem _ hb, hbt⟩

/-- Whatever the connection does, the records of a List that responds with
JSON are scans of rows of the table. -/
theorem getTodos_json (fault : QueryFault) (db : DB) (todos : List Todo)
    (h : getTodos fault db = jsonResponse (.todos (some todos))) :
    ∀ t ∈ todos, ∃ r ∈ db.rows, Scanned r t := by
  have key : ∀ rows : List Row, (∀ r ∈ rows, r ∈ db.rows) →
      ∀ l, scanRows [] rows = .ok l → ∀ t ∈ l, ∃ r ∈ db.rows, Scanned r t := by
    intro rows hsub l hl t ht
    obtain ⟨ts, hts, hscan⟩ := scanRows_ok _ _ _ hl
    simp only [List.nil_append] at hts
    subst hts
    obtain ⟨r, hr, hrt⟩ := scanned_mem hscan ht
    exact ⟨r, hsub r hr, hrt⟩
  have hall : ∀ r ∈ selectTodos db, r ∈ db.rows :=
    fun r hr => (selectTodos_perm db).subset hr
  cases fault with
  | query err => exact absurd h (httpError_ne_jsonResponse _ _)
  | none =>
    obtain ⟨hl, -⟩ := (getTodos_none_eq db _).mp h
    exact key _ hall _ hl
  | rows k err =>
    unfold getTodos at h
    simp only at h
    cases hs : scanRows [] (List.take k (selectTodos db)) with
    | error e => rw [hs] at h; exact absurd h (httpError_ne_jsonResponse _ _)
    | ok l =>
      rw [hs] at h
      simp only at h
      obtain ⟨hb, -⟩ := (encodeTodos_eq _ _).mp h
      subst hb
      exact key _ (fun r hr => hall r (List.mem_of_mem_take hr)) _ hs

/-- What a Delete that responds 200 has done. -/
theorem deleteTodo_ok (fault : Option String) (db : DB) (id : String)
    (hok : (deleteTodo fault db id).2.status = 200) :
    ∃ n, int4in id = .ok n ∧
      deleteTodo fault db id = (⟨db.rows.filter fun r => r.id != n, db.seq⟩, statusOK) := by
  unfold deleteTodo deleteRows at hok ⊢
  cases fault with
  | some e => simp [httpError] at hok
  | none =>
    simp only at hok ⊢
    cases hid : int4in id with
    | error e => rw [hid] at hok; simp [httpError] at hok
    | ok n => exact ⟨n, rfl, rfl⟩

/-- What an Update that responds 200 has done. -/
theorem updateTodo_ok (parseTime : String → Except String Time) (fault : Option String)
    (now : Int) (db : DB) (id : String) (body : ReqBody) (Y : Todo)
    (hdec : decodeTodo parseTime body = .ok Y)
    (hok : (updateTodo parseTime fault now db id body).2.status = 200) :
    ∃ n ti st, int4in id = .ok n ∧ varchar 255 Y.Title = .ok ti ∧ varchar 20 Y.Status = .ok st ∧
      updateTodo parseTime fault now db id body =
        (⟨db.rows.map fun r =>
            if r.id = n then
              { r with title := ti, due_date := some (toTimestamp Y.DueDate),
                       status := some st, updated_at := some now }
            else r, db.seq⟩, statusOK) := by
  rw [updateTodo_of_decode parseTime fault now db id body Y hdec] at hok ⊢
  unfold updateRows at hok ⊢
  cases fault with
  | some e => simp [httpError] at hok
  | none =>
    simp only at hok ⊢
    cases hid : int4in id with
    | error e => rw [hid] at hok; simp [httpError] at hok
    | ok n =>
      rw [hid] at hok
      simp only at hok ⊢
      cases hti : varchar 255 Y.Title with
      | error e => rw [hti] at hok; simp [httpError] at hok
      | ok ti =>
        rw [hti] at hok
        simp only at hok ⊢
        cases hst : varchar 20 Y.Status with
        | error e => rw [hst] at hok; simp [httpError] at hok
        | ok st => exact ⟨n, ti, st, rfl, rfl, rfl, rfl⟩

theorem varchar_of_length_le {n : Nat} {s t : String} (h : varchar n s = .ok t)
    (hlen : s.length ≤ n) : t = s := by
  unfold varchar at h
  split at h
  · cases h
  · cases h
    rfl

theorem fromTimestamp_toTimestamp (t : Time) (hoff : t.offset = 0) (hus : 1000 ∣ t.wall) :
    fromTimestamp (toTimestamp t) = t := by
  obtain ⟨wall, offset⟩ := t
  simp only at hoff hus
  subst hoff
  simp only [fromTimestamp, toTimestamp, Time.mk.injEq, and_true]
  exact Int.ediv_mul_cancel hus

theorem saveError_todo (d : DecodeState) (e : String) : (d.saveError e).todo = d.todo := by
  unfold DecodeState.saveError
  cases d.savedError <;> rfl

/-- A member that does not give a due date leaves the due date of the struct
as it is. -/
theorem storeMember_dueDate (parseTime : String → Except String Time) (d d' : DecodeState)
    (key : String) (v : JSON) (hv : keyMatches "due_date" key = true → v.isNull = true)
    (h : storeMember parseTime d key v = .ok d') : d'.todo.DueDate = d.todo.DueDate := by
  unfold storeMember at h
  split_ifs at h with h1 h2 h3 h4
  · cases v <;> simp only [Except.ok.injEq] at h <;> (try split at h) <;>
      (try simp only [Except.ok.injEq] at h) <;> rw [← h] <;>
      first | rfl | rw [saveError_todo]
  · cases v <;> simp only [Except.ok.injEq] at h <;> rw [← h] <;>
      first | rfl | rw [saveError_todo]
  · have := hv h3
    cases v <;> simp [JSON.isNull] at this
    simp only [Except.ok.injEq] at h
    rw [← h]
  · cases v <;> simp only [Except.ok.injEq] at h <;> rw [← h] <;>
      first | rfl | rw [saveError_todo]
  · simp only [Except.ok.injEq] at h
    rw [← h]

theorem storeMembers_dueDate (parseTime : String → Except String Time)
    (members : List (String × JSON)) (hm : withoutDueDate members = true) :
    ∀ d d' : DecodeState, storeMembers parseTime d members = .ok d' →
      d'.todo.DueDate = d.todo.DueDate := by
  induction members with
  | nil =>
    intro d d' h
    simp only [storeMembers, Except.ok.injEq] at h
    rw [h]
  | cons m rest ih =>
    intro d d' h
    obtain ⟨key, v⟩ := m
    simp only [withoutDueDate, List.all_cons, Bool.and_eq_true, Bool.or_eq_true,
      Bool.not_eq_true'] at hm
    unfold storeMembers at h
    cases h1 : storeMember parseTime d key v with
    | error e => rw [h1] at h; cases h
    | ok d1 =>
      rw [h1] at h
      have hv : keyMatches "due_date" key = true → v.isNull = true := by
        intro hk
        rcases hm.1 with hf | hn
        · rw [hk] at hf; cases hf
        · exact hn
      rw [ih (by simpa [withoutDueDate] using hm.2) d1 d' h,
        storeMember_dueDate parseTime d d1 key v hv h1]

/-- A body object that gives no due date decodes to a `Todo` with the zero
time. -/
theorem decodeTodo_without_due_date (parseTime : String → Except String Time)
    (members : List (String × JSON)) (X : Todo) (hm : withoutDueDate members = true)
    (h : decodeTodo parseTime (.value (.obj members)) = .ok X) : X.DueDate = Time.zero := by
  simp only [decodeTodo] at h
  cases hs : storeMembers parseTime ⟨Todo.zero, none⟩ members with
  | error e => rw [hs] at h; cases h
  | ok d =>
    rw [hs] at h
    simp only at h
    cases hsv : d.savedError with
    | some e => rw [hsv] at h; cases h
    | none =>
      rw [hsv] at h
      simp only [Except.ok.injEq] at h
      rw [← h, storeMembers_dueDate parseTime members hm _ _ hs]
      rfl

theorem scanned_of_mem {rows : List Row} {todos : List Todo}
    (h : List.Forall₂ Scanned rows todos) {r : Row} (hr : r ∈ rows) :
    ∃ t, Scanned r t := by
  induction h with
  | nil => cases hr
  | @cons r' t' rows' todos' h' _ ih =>
    rcases List.mem_cons.mp hr with rfl | hr'
    · exact ⟨t', h'⟩
    · exact ih hr'

/-! ## The claims -/

/-- C1: a Create whose body decodes into the `Todo` `X` and which responds 200,
served after any sequence of earlier requests on the table, appends one row to
the table and responds with the JSON of a `Todo` that has the title, due date
and status of `X` and the id of the new row, whatever id `X` has; that id is
positive and differs from every id an earlier Create returned. -/
theorem createTodo_returns_fresh_id (parseTime : String → Except String Time) (db0 : DB)
    (earlier : List Request) (fault : Option String) (now : Int) (body : ReqBody) (X : Todo)
    (hdec : decodeTodo parseTime body = .ok X)
    (hok : (createTodo parseTime fault now (serveAll parseTime db0 earlier).1 body).2.status = 200) :
    ∃ (id : Int) (row : Row),
      createTodo parseTime fault now (serveAll parseTime db0 earlier).1 body =
        (⟨(serveAll parseTime db0 earlier).1.rows ++ [row],
            (serveAll parseTime db0 earlier).1.seq + 1⟩,
          ⟨200, some "application/json", .todo ⟨id, X.Title, X.DueDate, X.Status⟩⟩) ∧
      row.id = id ∧ 0 < id ∧ id ∉ createdIds (serveAll parseTime db0 earlier).2 := by
  obtain ⟨ti, st, -, -, -, heq⟩ :=
    createTodo_ok parseTime fault now (serveAll parseTime db0 earlier).1 body X hdec hok
  refine ⟨((serveAll parseTime db0 earlier).1.seq : Int) + 1, _, heq, rfl, by omega, ?_⟩
  intro hmem
  have := createdIds_le_seq parseTime earlier db0 _ hmem
  omega

/-- Witness of C1: the second Create on a fresh table, with a body that carries
the id 99, returns the id 2. -/
theorem createTodo_returns_fresh_id_witness :
    ∃ (id : Int) (row : Row),
      createTodo readExampleTime none 8
          (serveAll readExampleTime ⟨[], 0⟩ [.create none 7 buyMilk]).1
          (.value (.obj [("id", .int 99), ("title", .str "Pay rent"), ("status", .str "open")])) =
        (⟨(serveAll readExampleTime ⟨[], 0⟩ [.create none 7 buyMilk]).1.rows ++ [row],
            (serveAll readExampleTime ⟨[], 0⟩ [.create none 7 buyMilk]).1.seq + 1⟩,
          ⟨200, some "application/json", .todo ⟨id, "Pay rent", ⟨0, 0⟩, "open"⟩⟩) ∧
      row.id = id ∧ 0 < id ∧
      id ∉ createdIds (serveAll readExampleTime ⟨[], 0⟩ [.create none 7 buyMilk]).2 :=
  createTodo_returns_fresh_id readExampleTime ⟨[], 0⟩ [.create none 7 buyMilk] none 8
    (.value (.obj [("id", .int 99), ("title", .str "Pay rent"), ("status", .str "open")]))
    ⟨99, "Pay rent", ⟨0, 0⟩, "open"⟩ rfl (by decide)

/-- C2: when the request body fails to decode into a `Todo`, Create and Update
both respond with status 400 and the text of the decode error, whatever the
state of the connection, and the table (rows and sequence) is as before: no
statement is sent. -/
theorem decode_error_is_bad_request (parseTime : String → Except String Time)
    (fault : Option String) (now : Int) (db : DB) (id : String) (body : ReqBody) (err : String)
    (h : decodeTodo parseTime body = .error err) :
    createTodo parseTime fault now db body = (db, ⟨400, some "text/plain; charset=utf-8", .errorText err⟩) ∧
    updateTodo parseTime fault now db id body = (db, ⟨400, some "text/plain; charset=utf-8", .errorText err⟩) := by
  constructor
  · unfold createTodo; rw [h]; rfl
  · unfold updateTodo; rw [h]; rfl

/-- Witness of C2: an empty body, for which the decoder reports `EOF`, sent to
both routes while the connection is broken. -/
theorem decode_error_is_bad_request_witness :
    decodeTodo readExampleTime (.malformed "EOF") = .error "EOF" ∧
    createTodo readExampleTime (some "conn closed") 0 ⟨[], 0⟩ (.malformed "EOF")
      = (⟨[], 0⟩, ⟨400, some "text/plain; charset=utf-8", .errorText "EOF"⟩) ∧
    updateTodo readExampleTime (some "conn closed") 0 ⟨[], 0⟩ "1" (.malformed "EOF")
      = (⟨[], 0⟩, ⟨400, some "text/plain; charset=utf-8", .errorText "EOF"⟩) :=
  ⟨rfl, decode_error_is_bad_request readExampleTime (some "conn closed") 0 ⟨[], 0⟩ "1"
    (.malformed "EOF") "EOF" rfl⟩

/-- C6 as stated fails: both rows of the table have a due date, the second in
the year 10000.  The datastore does not fail and List responds 200, but with
an empty body: `Encode` cannot marshal that year and the handler discards its
error, so List returns no row of the table. -/
theorem getTodos_sorted_by_due_date_counterexample :
    getTodos .none
        ⟨[⟨1, "Buy milk", some 63839664000000000, some "pending", some 0, some 0⟩,
          ⟨2, "Pay rent", some 315537897600000000, some "pending", some 0, some 0⟩], 2⟩
      = ⟨200, some "application/json", .empty⟩ := by
  decide

/-- C6, amended: let every row of the table have a due date in the years
0..9999 (in microseconds from 0001-01-01: at least -31622400000000 and less
than 315537897600000000), let the datastore not fail and List respond 200.
Then the body is an array that holds, for a rearrangement of the rows of the
table with every row once, the record of each row: its id, its title, its due
date as a UTC time and its status; and the due date of each record is at most
the due date of every later record. -/
theorem getTodos_sorted_by_due_date (db : DB)
    (hdue : ∀ r ∈ db.rows, ∃ d, r.due_date = some d ∧
      -31622400000000 ≤ d ∧ d < 315537897600000000)
    (hok : (getTodos .none db).status = 200) :
    ∃ (rows : List Row) (todos : List Todo),
      getTodos .none db = ⟨200, some "application/json", .todos (some todos)⟩ ∧
      rows.Perm db.rows ∧
      List.Forall₂ (fun r t => ∃ d s, r.due_date = some d ∧ r.status = some s ∧
        t = ⟨r.id, r.title, ⟨d * 1000, 0⟩, s⟩) rows todos ∧
      todos.Sorted (fun a b => a.DueDate.wall - a.DueDate.offset * 1000000000
        ≤ b.DueDate.wall - b.DueDate.offset * 1000000000) := by
  obtain ⟨l, hl, hresp⟩ := getTodos_none_status db hok
  obtain ⟨ts, hts, hscan⟩ := scanRows_ok _ _ _ hl
  simp only [List.nil_append] at hts
  subst hts
  have hyear : ∀ r ∈ selectTodos db, ∀ d, r.due_date = some d →
      -31622400000000 ≤ d ∧ d < 315537897600000000 := by
    intro r hr d hd
    obtain ⟨d', hd', hb⟩ := hdue r ((selectTodos_perm db).subset hr)
    rw [hd] at hd'
    cases hd'
    exact hb
  have henc : encodeTodos l = jsonResponse (.todos (some l)) :=
    (encodeTodos_eq l l).mpr ⟨rfl, scanned_marshals hyear hscan⟩
  refine ⟨selectTodos db, l, by rw [hresp, henc]; rfl, selectTodos_perm db, ?_, ?_⟩
  · exact hscan.imp fun r t hrt => scanned_explicit hrt
  · refine pairwise_of_scanned ?_ hscan (selectTodos_sorted db)
    intro a b x y hax hby hab
    obtain ⟨d, hd, hx⟩ := scanned_DueDate hax
    obtain ⟨d', hd', hy⟩ := scanned_DueDate hby
    have hle : d ≤ d' := by
      have : dueBefore (some d) (some d') = true := by rw [← hd, ← hd']; exact hab
      simpa [dueBefore] using this
    rw [hx, hy]
    simp only [fromTimestamp]
    omega

/-- Witness of C6, amended: three rows stored out of order come back in the
order of their due dates. -/
theorem getTodos_sorted_by_due_date_witness :
    ∃ (rows : List Row) (todos : List Todo),
      getTodos .none ⟨[⟨1, "c", some 30, some "", none, none⟩, ⟨2, "a", some 10, some "", none, none⟩,
          ⟨3, "b", some 20, some "", none, none⟩], 3⟩
        = ⟨200, some "application/json", .todos (some todos)⟩ ∧
      rows.Perm [⟨1, "c", some 30, some "", none, none⟩, ⟨2, "a", some 10, some "", none, none⟩,
          ⟨3, "b", some 20, some "", none, none⟩] ∧
      List.Forall₂ (fun r t => ∃ d s, r.due_date = some d ∧ r.status = some s ∧
        t = ⟨r.id, r.title, ⟨d * 1000, 0⟩, s⟩) rows todos ∧
      todos.Sorted (fun a b => a.DueDate.wall - a.DueDate.offset * 1000000000
        ≤ b.DueDate.wall - b.DueDate.offset * 1000000000) :=
  getTodos_sorted_by_due_date
    ⟨[⟨1, "c", some 30, some "", none, none⟩, ⟨2, "a", some 10, some "", none, none⟩,
      ⟨3, "b", some 20, some "", none, none⟩], 3⟩
    (by
      intro r hr
      simp only [List.mem_cons, List.mem_singleton, List.not_mem_nil, or_false] at hr
      rcases hr with rfl | rfl | rfl
      · exact ⟨30, rfl, by decide, by decide⟩
      · exact ⟨10, rfl, by decide, by decide⟩
      · exact ⟨20, rfl, by decide, by decide⟩)
    (by decide)

/-- C9 as stated fails: the one row of the table has a due date in the year
10000.  The datastore does not fail and List responds 200, but the body is
empty, not an array with one element: `Encode` cannot marshal that year and the
handler discards its error. -/
theorem getTodos_array_counterexample :
    getTodos .none ⟨[⟨1, "Pay rent", some 315537897600000000, some "pending", some 0, some 0⟩], 1⟩
      = ⟨200, some "application/json", .empty⟩ := by
  decide

/-- C9, amended: when the datastore does not fail, List on a table without rows
responds 200 with the empty array; whatever the connection does, the body of
List is never the encoding of the nil slice (`null`); and when the datastore
does not fail, every due date of the table lies in the years 0..9999 (in
microseconds from 0001-01-01: at least -31622400000000 and less than
315537897600000000) and List responds 200, the body is an array with as many
elements as the table has rows. -/
theorem getTodos_array (db : DB) :
    (db.rows = [] → getTodos .none db = ⟨200, some "application/json", .todos (some [])⟩) ∧
    (∀ fault, (getTodos fault db).body ≠ .todos none) ∧
    ((∀ r ∈ db.rows, ∀ d, r.due_date = some d →
        -31622400000000 ≤ d ∧ d < 315537897600000000) →
      (getTodos .none db).status = 200 →
      ∃ todos, getTodos .none db = ⟨200, some "application/json", .todos (some todos)⟩ ∧
        todos.length = db.rows.length) := by
  have hbody : ∀ l, (encodeTodos l).body ≠ .todos none := by
    intro l
    unfold encodeTodos
    split <;> simp [jsonResponse]
  refine ⟨?_, ?_, ?_⟩
  · intro h
    simp [getTodos, selectTodos, h, scanRows, encodeTodos, jsonResponse]
  · intro fault
    cases fault with
    | none =>
      unfold getTodos
      simp only
      cases scanRows [] (selectTodos db) with
      | error e => simp [httpError]
      | ok l => exact hbody l
    | query err => simp [getTodos, httpError]
    | rows k err =>
      unfold getTodos
      simp only
      cases scanRows [] (List.take k (selectTodos db)) with
      | error e => simp [httpError]
      | ok l => exact hbody l
  · intro hyear hok
    obtain ⟨l, hl, hresp⟩ := getTodos_none_status db hok
    obtain ⟨ts, hts, hscan⟩ := scanRows_ok _ _ _ hl
    simp only [List.nil_append] at hts
    subst hts
    have henc : encodeTodos l = jsonResponse (.todos (some l)) :=
      (encodeTodos_eq l l).mpr ⟨rfl, scanned_marshals
        (fun r hr => hyear r ((selectTodos_perm db).subset hr)) hscan⟩
    refine ⟨l, by rw [hresp, henc]; rfl, ?_⟩
    rw [← hscan.length_eq]
    exact (selectTodos_perm db).length_eq

/-- Witness of C9, amended: the empty table, and a table of two rows. -/
theorem getTodos_array_witness :
    getTodos .none ⟨[], 4⟩ = ⟨200, some "application/json", .todos (some [])⟩ ∧
    ∃ todos, getTodos .none ⟨[⟨1, "a", some 5, some "done", none, none⟩,
          ⟨2, "b", some 3, some "", none, none⟩], 2⟩
        = ⟨200, some "application/json", .todos (some todos)⟩ ∧
      todos.length = 2 :=
  ⟨(getTodos_array ⟨[], 4⟩).1 rfl,
   (getTodos_array ⟨[⟨1, "a", some 5, some "done", none, none⟩,
      ⟨2, "b", some 3, some "", none, none⟩], 2⟩).2.2
      (by
        intro r hr d hd
        simp only [List.mem_cons, List.mem_singleton, List.not_mem_nil, or_false] at hr
        rcases hr with rfl | rfl
        · cases hd; exact ⟨by decide, by decide⟩
        · cases hd; exact ⟨by decide, by decide⟩)
      (by decide)⟩

/-- C8 at a failing input: the table holds two todos and the stream of result
rows breaks after the first.  List responds 200 with an array of one record:
the error of the iteration is not reported.  (A failing query and a failing
scan are reported with status 500.) -/
theorem getTodos_partial_array :
    getTodos (.rows 1 "unexpected EOF")
        ⟨[⟨1, "Buy milk", some 63839664000000000, some "pending", some 0, some 0⟩,
          ⟨2, "Pay rent", some 63855345600000000, some "pending", some 0, some 0⟩], 2⟩
      = ⟨200, some "application/json",
          .todos (some [⟨1, "Buy milk", ⟨63839664000000000000, 0⟩, "pending"⟩])⟩ ∧
    getTodos (.query "unexpected EOF")
        ⟨[⟨1, "Buy milk", some 63839664000000000, some "pending", some 0, some 0⟩,
          ⟨2, "Pay rent", some 63855345600000000, some "pending", some 0, some 0⟩], 2⟩
      = ⟨500, some "text/plain; charset=utf-8", .errorText "unexpected EOF"⟩ := by
  decide

/-- C7 at a failing input: Create on the table as `initializeSchema` creates
it, with the body `{"title": "Buy milk"}`, which has no status.  The statement gives the column
`status` the empty string of the decoded struct, so the column default
`pending` is not used: the stored row, the response and the record List returns
afterwards all have the empty status. -/
theorem createTodo_status_omitted :
    initializeSchema none none = (some ⟨[], 0⟩, none) ∧
    omits "status" [("title", .str "Buy milk")] = true ∧
    createTodo readExampleTime none 7 ⟨[], 0⟩ (.value (.obj [("title", .str "Buy milk")]))
      = (⟨[⟨1, "Buy milk", some 0, some "", some 7, some 7⟩], 1⟩,
         ⟨200, some "application/json", .todo ⟨1, "Buy milk", ⟨0, 0⟩, ""⟩⟩) ∧
    getTodos .none ⟨[⟨1, "Buy milk", some 0, some "", some 7, some 7⟩], 1⟩
      = ⟨200, some "application/json", .todos (some [⟨1, "Buy milk", ⟨0, 0⟩, ""⟩])⟩ := by
  decide

/-- C4: after a Delete that responds 200, the path variable was the text of an
integer `n`; no List afterwards, whatever the connection does, returns a record
with the id `n`; and when the datastore does not fail, a List that returned
`todos` before the Delete returns after it exactly the records of `todos` with
another id, unchanged and in the same order. -/
theorem deleteTodo_removes (fault : Option String) (db : DB) (id : String)
    (hok : (deleteTodo fault db id).2.status = 200) :
    ∃ n : Int, int4in id = .ok n ∧
      (∀ f todos, getTodos f (deleteTodo fault db id).1 = jsonResponse (.todos (some todos)) →
        ∀ t ∈ todos, t.ID ≠ n) ∧
      (∀ todos, getTodos .none db = jsonResponse (.todos (some todos)) →
        getTodos .none (deleteTodo fault db id).1 =
          jsonResponse (.todos (some (todos.filter fun t => t.ID != n)))) := by
  obtain ⟨n, hn, heq⟩ := deleteTodo_ok fault db id hok
  refine ⟨n, hn, ?_, ?_⟩
  · intro f todos h t ht
    obtain ⟨r, hr, hrt⟩ := getTodos_json f _ todos h t ht
    rw [heq] at hr
    have hne := (List.mem_filter.mp hr).2
    rw [scanned_ID hrt]
    simpa using hne
  · intro todos h
    obtain ⟨hl, hm⟩ := (getTodos_none_eq db _).mp h
    obtain ⟨ts, hts, hscan⟩ := scanRows_ok _ _ _ hl
    simp only [List.nil_append] at hts
    subst hts
    rw [heq, getTodos_none_eq]
    refine ⟨?_, ?_⟩
    swap
    · rw [List.all_eq_true] at hm ⊢
      exact fun t ht => hm t (List.mem_filter.mp ht).1
    have hsel : selectTodos ⟨db.rows.filter fun r => r.id != n, db.seq⟩ =
        (selectTodos db).filter fun r => r.id != n :=
      filter_insertionSort rowBefore _ db.rows
    rw [hsel]
    have := scanRows_of_scanned _ [] _
      (scanned_filter (p := fun r => r.id != n) (q := fun t => t.ID != n)
        (fun r t hrt => by simp only [scanned_ID hrt]) hscan)
    simpa using this

/-- Witness of C4: the todo 1 of three is deleted. -/
theorem deleteTodo_removes_witness :
    ∃ n : Int, int4in "1" = .ok n ∧
      (∀ f todos,
        getTodos f (deleteTodo none ⟨[⟨1, "c", some 30, some "", none, none⟩,
            ⟨2, "a", some 10, some "", none, none⟩], 2⟩ "1").1
          = jsonResponse (.todos (some todos)) → ∀ t ∈ todos, t.ID ≠ n) ∧
      (∀ todos,
        getTodos .none ⟨[⟨1, "c", some 30, some "", none, none⟩,
            ⟨2, "a", some 10, some "", none, none⟩], 2⟩ = jsonResponse (.todos (some todos)) →
        getTodos .none (deleteTodo none ⟨[⟨1, "c", some 30, some "", none, none⟩,
            ⟨2, "a", some 10, some "", none, none⟩], 2⟩ "1").1 =
          jsonResponse (.todos (some (todos.filter fun t => t.ID != n)))) :=
  deleteTodo_removes none ⟨[⟨1, "c", some 30, some "", none, none⟩,
    ⟨2, "a", some 10, some "", none, none⟩], 2⟩ "1" (by decide)

/-- C3 as stated fails: on the empty table no id matches a row, yet Delete and
Update with the path variable `abc` respond 500 with the error of the
datastore, which cannot read `abc` as an integer; and Update with the path
variable `7` and a title that holds a zero character responds 500 as well. -/
theorem no_matching_row_counterexample :
    deleteTodo none ⟨[], 0⟩ "abc"
      = (⟨[], 0⟩, ⟨500, some "text/plain; charset=utf-8",
          .errorText "invalid input syntax for type integer: abc"⟩) ∧
    updateTodo readExampleTime none 0 ⟨[], 0⟩ "abc" buyMilk
      = (⟨[], 0⟩, ⟨500, some "text/plain; charset=utf-8",
          .errorText "invalid input syntax for type integer: abc"⟩) ∧
    updateTodo readExampleTime none 0 ⟨[], 0⟩ "7"
        (.value (.obj [("title", .str (String.mk [Char.ofNat 0]))]))
      = (⟨[], 0⟩, ⟨500, some "text/plain; charset=utf-8",
          .errorText "invalid byte sequence for encoding UTF8: 0x00"⟩) := by
  decide

/-- C3, amended: when the datastore does not fail, the path variable is the
text of an integer `n` that is the id of no row, and the columns accept the
title and the status of the decoded body, Update and Delete respond 200 with an
empty body and leave the table as it is, so that List responds after them as it
did before. -/
theorem no_matching_row (parseTime : String → Except String Time) (now : Int) (db : DB)
    (id : String) (n : Int) (body : ReqBody) (Y : Todo)
    (hid : int4in id = .ok n) (hno : ∀ r ∈ db.rows, r.id ≠ n)
    (hdec : decodeTodo parseTime body = .ok Y)
    (hti : ∃ ti, varchar 255 Y.Title = .ok ti) (hst : ∃ st, varchar 20 Y.Status = .ok st) :
    updateTodo parseTime none now db id body = (db, ⟨200, none, .empty⟩) ∧
    deleteTodo none db id = (db, ⟨200, none, .empty⟩) ∧
    ∀ f, getTodos f (updateTodo parseTime none now db id body).1 = getTodos f db ∧
      getTodos f (deleteTodo none db id).1 = getTodos f db := by
  obtain ⟨ti, hti⟩ := hti
  obtain ⟨st, hst⟩ := hst
  have hu : updateTodo parseTime none now db id body = (db, ⟨200, none, .empty⟩) := by
    rw [updateTodo_of_decode parseTime none now db id body Y hdec]
    unfold updateRows
    simp only [hid, hti, hst]
    have hmap : (db.rows.map fun r =>
        if r.id = n then
          { r with title := ti, due_date := some (toTimestamp Y.DueDate),
                   status := some st, updated_at := some now }
        else r) = db.rows := by
      conv_rhs => rw [← List.map_id db.rows]
      apply List.map_congr_left
      intro r hr
      rw [if_neg (hno r hr)]
      rfl
    rw [hmap]
    rfl
  have hd : deleteTodo none db id = (db, ⟨200, none, .empty⟩) := by
    unfold deleteTodo deleteRows
    simp only [hid]
    have hfil : (db.rows.filter fun r => r.id != n) = db.rows := by
      rw [List.filter_eq_self]
      intro r hr
      simpa using hno r hr
    rw [hfil]
    rfl
  refine ⟨hu, hd, ?_⟩
  intro f
  rw [hu, hd]
  exact ⟨rfl, rfl⟩

/-- Witness of C3, amended: the table holds the todo 1 and the path variable
is `7`. -/
theorem no_matching_row_witness :
    updateTodo readExampleTime none 9 ⟨[⟨1, "a", some 5, some "done", none, none⟩], 1⟩ "7" buyMilk
      = (⟨[⟨1, "a", some 5, some "done", none, none⟩], 1⟩, ⟨200, none, .empty⟩) ∧
    deleteTodo none ⟨[⟨1, "a", some 5, some "done", none, none⟩], 1⟩ "7"
      = (⟨[⟨1, "a", some 5, some "done", none, none⟩], 1⟩, ⟨200, none, .empty⟩) ∧
    ∀ f,
      getTodos f (updateTodo readExampleTime none 9
          ⟨[⟨1, "a", some 5, some "done", none, none⟩], 1⟩ "7" buyMilk).1
        = getTodos f ⟨[⟨1, "a", some 5, some "done", none, none⟩], 1⟩ ∧
      getTodos f (deleteTodo none ⟨[⟨1, "a", some 5, some "done", none, none⟩], 1⟩ "7").1
        = getTodos f ⟨[⟨1, "a", some 5, some "done", none, none⟩], 1⟩ :=
  no_matching_row readExampleTime 9 ⟨[⟨1, "a", some 5, some "done", none, none⟩], 1⟩ "7" 7 buyMilk
    ⟨0, "Buy milk", ⟨63839664000000000000, 0⟩, "pending"⟩ rfl (by decide) rfl
    ⟨"Buy milk", rfl⟩ ⟨"pending", rfl⟩

/-- C5 as stated fails: after Create with the body of the example scenario and
Update of the id 1 with a body whose due date has half a microsecond, List
returns the record 1 with the due date cut to the whole microsecond, which is
not the due date the Update body decodes to. -/
theorem update_after_create_counterexample :
    decodeTodo readExampleTime (.value (.obj [("title", .str "Buy milk"),
        ("due_date", .str "2024-01-01T00:00:00.0000005Z"), ("status", .str "done")]))
      = .ok ⟨0, "Buy milk", ⟨63839664000000000500, 0⟩, "done"⟩ ∧
    (createTodo readExampleTime none 1 ⟨[], 0⟩ buyMilk).2
      = ⟨200, some "application/json",
          .todo ⟨1, "Buy milk", ⟨63839664000000000000, 0⟩, "pending"⟩⟩ ∧
    (updateTodo readExampleTime none 2 (createTodo readExampleTime none 1 ⟨[], 0⟩ buyMilk).1 "1"
        (.value (.obj [("title", .str "Buy milk"),
          ("due_date", .str "2024-01-01T00:00:00.0000005Z"), ("status", .str "done")]))).2
      = ⟨200, none, .empty⟩ ∧
    getTodos .none
        (updateTodo readExampleTime none 2 (createTodo readExampleTime none 1 ⟨[], 0⟩ buyMilk).1 "1"
          (.value (.obj [("title", .str "Buy milk"),
            ("due_date", .str "2024-01-01T00:00:00.0000005Z"), ("status", .str "done")]))).1
      = ⟨200, some "application/json",
          .todos (some [⟨1, "Buy milk", ⟨63839664000000000000, 0⟩, "done"⟩])⟩ :=
  ⟨rfl, by decide, by decide, by decide⟩

/-- C5, amended: let Create with a body that decodes to `X` respond with the
todo `c`, let Update with a path variable that is the text of `c.ID` and a body
that decodes to `Y` respond 200, and let List then respond with `todos` while
the datastore does not fail.  Then `todos` has exactly one record with the id
`c.ID`, whatever id `Y` has; its title and status are those of `Y` as the
columns `VARCHAR(255)` and `VARCHAR(20)` store them, and its due date is the
wall-clock reading of the due date of `Y` in whole microseconds, in UTC.  When
the title of `Y` has at most 255 characters, its status at most 20, and its due
date is in UTC with whole microseconds, the record has exactly the title, due
date and status of `Y`; nothing of `X` is kept. -/
theorem update_after_create (parseTime : String → Except String Time) (db : DB)
    (f1 : Option String) (now1 : Int) (bodyX : ReqBody) (X : Todo)
    (f2 : Option String) (now2 : Int) (p : String) (bodyY : ReqBody) (Y : Todo)
    (c : Todo) (todos : List Todo)
    (hX : decodeTodo parseTime bodyX = .ok X) (hY : decodeTodo parseTime bodyY = .ok Y)
    (hc : (createTodo parseTime f1 now1 db bodyX).2 = jsonResponse (.todo c))
    (hp : int4in p = .ok c.ID)
    (hu : (updateTodo parseTime f2 now2 (createTodo parseTime f1 now1 db bodyX).1 p bodyY).2.status
      = 200)
    (hl : getTodos .none
        (updateTodo parseTime f2 now2 (createTodo parseTime f1 now1 db bodyX).1 p bodyY).1
      = jsonResponse (.todos (some todos))) :
    ∃ ti st, varchar 255 Y.Title = .ok ti ∧ varchar 20 Y.Status = .ok st ∧
      todos.filter (fun t => t.ID == c.ID)
        = [⟨c.ID, ti, fromTimestamp (toTimestamp Y.DueDate), st⟩] ∧
      (Y.Title.length ≤ 255 → Y.Status.length ≤ 20 → Y.DueDate.offset = 0 →
        1000 ∣ Y.DueDate.wall →
        todos.filter (fun t => t.ID == c.ID) = [⟨c.ID, Y.Title, Y.DueDate, Y.Status⟩]) := by
  have hcs : (createTodo parseTime f1 now1 db bodyX).2.status = 200 := by rw [hc]; rfl
  obtain ⟨tiX, stX, -, -, hfresh, hceq⟩ := createTodo_ok parseTime f1 now1 db bodyX X hX hcs
  rw [hceq] at hc hu hl
  have hcid : c.ID = (db.seq : Int) + 1 := by
    have := congrArg Response.body hc
    simp only [jsonResponse, Body.todo.injEq] at this
    rw [← this]
  obtain ⟨n, ti, st, hn, hti, hst, hueq⟩ := updateTodo_ok parseTime f2 now2 _ p bodyY Y hY hu
  rw [hueq] at hl
  have hnc : n = c.ID := by
    rw [hp] at hn
    exact (Except.ok.inj hn).symm
  subst hnc
  obtain ⟨hscanl, -⟩ := (getTodos_none_eq _ _).mp hl
  obtain ⟨ts, hts, hscan⟩ := scanRows_ok _ _ _ hscanl
  simp only [List.nil_append] at hts
  subst hts
  have hfilt := scanned_filter (p := fun r => r.id == c.ID) (q := fun t => t.ID == c.ID)
    (fun r t hrt => by simp only [scanned_ID hrt]) hscan
  unfold selectTodos at hfilt
  rw [← filter_insertionSort] at hfilt
  simp only [List.map_append, List.map_cons, List.map_nil, List.filter_append] at hfilt
  have hold : ((db.rows.map fun r =>
      if r.id = c.ID then
        { r with title := ti, due_date := some (toTimestamp Y.DueDate),
                 status := some st, updated_at := some now2 }
      else r).filter fun r => r.id == c.ID) = [] := by
    rw [List.filter_eq_nil_iff]
    intro r hr
    obtain ⟨r0, hr0, rfl⟩ := List.mem_map.mp hr
    have hne : r0.id ≠ c.ID := by rw [hcid]; exact hfresh r0 hr0
    rw [if_neg hne]
    simpa using hne
  rw [hold] at hfilt
  simp only [hcid, if_true, List.nil_append, List.filter_cons, beq_self_eq_true,
    List.filter_nil, List.insertionSort, List.orderedInsert] at hfilt
  have hrec : todos.filter (fun t => t.ID == c.ID)
      = [⟨c.ID, ti, fromTimestamp (toTimestamp Y.DueDate), st⟩] := by
    rw [hcid]
    generalize todos.filter (fun t => t.ID == (db.seq : Int) + 1) = found at hfilt
    cases hfilt with
    | cons h1 hrest =>
      cases hrest
      simp only [Scanned, scanTodo, Except.ok.injEq] at h1
      rw [← h1]
  refine ⟨ti, st, hti, hst, hrec, ?_⟩
  intro hlt hls hoff hus
  rw [hrec, varchar_of_length_le hti hlt, varchar_of_length_le hst hls,
    fromTimestamp_toTimestamp _ hoff hus]

/-- Witness of C5, amended: Create of a todo with a title only, then Update of
the id 1 with the body of the example scenario, then List. -/
theorem update_after_create_witness :
    (createTodo readExampleTime none 1 ⟨[], 0⟩ titleOnly).2
      = jsonResponse (.todo ⟨1, "Buy milk", ⟨0, 0⟩, ""⟩) ∧
    getTodos .none
        (updateTodo readExampleTime none 2 (createTodo readExampleTime none 1 ⟨[], 0⟩ titleOnly).1
          "1" buyMilk).1
      = jsonResponse (.todos (some [⟨1, "Buy milk", ⟨63839664000000000000, 0⟩, "pending"⟩])) ∧
    List.filter (fun t => t.ID == 1)
        [(⟨1, "Buy milk", ⟨63839664000000000000, 0⟩, "pending"⟩ : Todo)]
      = [⟨1, "Buy milk", ⟨63839664000000000000, 0⟩, "pending"⟩] := by
  refine ⟨by decide, by decide, ?_⟩
  obtain ⟨ti, st, -, -, -, h⟩ := update_after_create readExampleTime ⟨[], 0⟩ none 1 titleOnly
    ⟨0, "Buy milk", ⟨0, 0⟩, ""⟩ none 2 "1" buyMilk
    ⟨0, "Buy milk", ⟨63839664000000000000, 0⟩, "pending"⟩ ⟨1, "Buy milk", ⟨0, 0⟩, ""⟩
    [⟨1, "Buy milk", ⟨63839664000000000000, 0⟩, "pending"⟩]
    rfl rfl (by decide) rfl (by decide) (by decide)
  exact h (by decide) (by decide) rfl (by norm_num)

/-- C10 as stated fails: Create with a body whose due date is `null` responds
with the zero time 0001-01-01T00:00:00 UTC as due date and stores that time in
the row, not NULL; and List on a table with a row whose due date is NULL
responds 500 with the error of the scan. -/
theorem createTodo_without_due_date_counterexample :
    createTodo readExampleTime none 7 ⟨[], 0⟩
        (.value (.obj [("title", .str "Buy milk"), ("due_date", .null)]))
      = (⟨[⟨1, "Buy milk", some 0, some "", some 7, some 7⟩], 1⟩,
         ⟨200, some "application/json", .todo ⟨1, "Buy milk", ⟨0, 0⟩, ""⟩⟩) ∧
    getTodos .none ⟨[⟨1, "Buy milk", none, some "pending", some 7, some 7⟩], 1⟩
      = ⟨500, some "text/plain; charset=utf-8",
          .errorText "can't scan into dest[2]: cannot scan NULL into *time.Time"⟩ := by
  decide

/-- C10, amended: a Create that responds 200 and whose body object gives no
due date (no member addresses `due_date`, or those that do are `null`)
responds with the zero time 0001-01-01T00:00:00 UTC as due date and stores
that time, never NULL, in the new row; and when the datastore does not fail,
List on a table that has a row whose due date is NULL responds 500. -/
theorem createTodo_without_due_date (parseTime : String → Except String Time)
    (fault : Option String) (now : Int) (db : DB) (members : List (String × JSON)) :
    (withoutDueDate members = true →
      (createTodo parseTime fault now db (.value (.obj members))).2.status = 200 →
      ∃ (X : Todo) (row : Row), decodeTodo parseTime (.value (.obj members)) = .ok X ∧
        createTodo parseTime fault now db (.value (.obj members)) =
          (⟨db.rows ++ [row], db.seq + 1⟩,
            ⟨200, some "application/json", .todo ⟨row.id, X.Title, ⟨0, 0⟩, X.Status⟩⟩) ∧
        row.due_date = some 0) ∧
    ((∃ r ∈ db.rows, r.due_date = none) → (getTodos .none db).status = 500) := by
  constructor
  · intro hm hok
    cases hdec : decodeTodo parseTime (.value (.obj members)) with
    | error e =>
      unfold createTodo at hok
      rw [hdec] at hok
      simp [httpError] at hok
    | ok X =>
      obtain ⟨ti, st, -, -, -, heq⟩ := createTodo_ok parseTime fault now db _ X hdec hok
      have hz := decodeTodo_without_due_date parseTime members X hm hdec
      refine ⟨X, ⟨(db.seq : Int) + 1, ti, some (toTimestamp X.DueDate), some st, some now,
        some now⟩, rfl, ?_, ?_⟩
      · rw [heq, hz]; rfl
      · rw [hz]; rfl
  · rintro ⟨r, hr, hnone⟩
    unfold getTodos
    cases hs : scanRows [] (selectTodos db) with
    | error e => rfl
    | ok l =>
      exfalso
      obtain ⟨ts, -, hscan⟩ := scanRows_ok _ _ _ hs
      obtain ⟨t, ht⟩ := scanned_of_mem hscan ((selectTodos_perm db).mem_iff.mpr hr)
      obtain ⟨d, hd, -⟩ := scanned_DueDate ht
      rw [hnone] at hd
      cases hd

/-- Witness of C10, amended: a body with a title only, and a table with one
row that has no due date. -/
theorem createTodo_without_due_date_witness :
    (∃ (X : Todo) (row : Row), decodeTodo readExampleTime titleOnly = .ok X ∧
        createTodo readExampleTime none 7 ⟨[], 0⟩ titleOnly =
          (⟨[] ++ [row], 0 + 1⟩,
            ⟨200, some "application/json", .todo ⟨row.id, X.Title, ⟨0, 0⟩, X.Status⟩⟩) ∧
        row.due_date = some 0) ∧
    (getTodos .none ⟨[⟨1, "Buy milk", none, some "pending", some 7, some 7⟩], 1⟩).status = 500 :=
  ⟨(createTodo_without_due_date readExampleTime none 7 ⟨[], 0⟩
      [("title", .str "Buy milk")]).1 (by decide) (by decide),
   (createTodo_without_due_date readExampleTime none 7
      ⟨[⟨1, "Buy milk", none, some "pending", some 7, some 7⟩], 1⟩ []).2
      ⟨_, List.mem_cons_self _ _, rfl⟩⟩

end TodoService
